import Mathlib

/-
Verification of the composably content pipeline (shallow embedding).

The definitions below are translated from the repository's source:
  * `contentTraverser`, `shortHash`          — src/src/lib/utils.ts
  * `loadAndAttachFragments`                 — src/src/lib/content.ts (ContentLoader)
  * `composablyTypes.markdown`'s `prepare`   — src/src/lib/schemas.ts
  * `virtualPageSource` (call phase, its two callbacks, and the failure
    rollback) and `invalidateAndGetAffectedItems` — src/src/lib/utils.ts
    (cache section).

Modelling conventions:
  * JS `Map`s are association lists `Assoc α` (unique keys by construction of
    the operations; lookup takes the first match), JS `Set`s are insertion
    ordered duplicate-free `List String`.
  * JS numbers are exact integers (`Int`), with `ToInt32`/`ToUint32`
    coercions made explicit where the JS operators perform them.
  * Strings fed to `shortHash` are modelled as their list of UTF-16 code
    units (`List Nat`), matching `charCodeAt`.
  * Asynchrony: the JS runtime is single-threaded and cooperative; a call to
    `virtualPageSource` runs synchronously up to storing the page-cache
    entry, and the load's callbacks and settlement run afterwards.  The call
    phase, the callback events and the failure rollback are therefore
    modelled as separate state transformers applied in that order.
  * The traverser recursion is not structurally terminating (the callback
    may grow the tree), so it takes an explicit fuel argument; running out
    of fuel yields the distinguished error `LoadErr.fuelOut`.
-/

/-! ## Association-list model of JS Map, and JS Set as ordered list -/

abbrev Assoc (α : Type) := List (String × α)

def lookupA {α : Type} : Assoc α → String → Option α
  | [], _ => none
  | (k, v) :: m, q => if q = k then some v else lookupA m q

def memA {α : Type} (m : Assoc α) (k : String) : Bool :=
  (lookupA m k).isSome

/-- JS `Map.delete` (also used for plain-object `delete`): removes the key. -/
def eraseA {α : Type} (m : Assoc α) (q : String) : Assoc α :=
  m.filter (fun p => decide (p.1 ≠ q))

/-- JS `Map.set`: overwrites in place if the key exists, else appends. -/
def insertA {α : Type} : Assoc α → String → α → Assoc α
  | [], k, v => [(k, v)]
  | (k₁, v₁) :: m, k, v =>
      if k₁ = k then (k, v) :: m else (k₁, v₁) :: insertA m k v

/-- JS `Set.add`: appends if absent (JS sets keep insertion order). -/
def insertS (s : List String) (x : String) : List String :=
  if x ∈ s then s else s ++ [x]

def countKeyA {α : Type} (m : Assoc α) (k : String) : Nat :=
  (m.filter (fun p => decide (p.1 = k))).length

/-! ## shortHash (src/src/lib/utils.ts)

```js
export const shortHash = (str) => {
  let hash = 0;
  for (let i = 0; i < str.length; i++)
    hash = (hash << 5) - hash + str.charCodeAt(i);
  return ('0000' + (hash >>> 0).toString(36)).slice(-4);
};
```
-/

/-- JS `ToInt32`: reduce mod 2^32 into `[-2^31, 2^31)`. -/
def toInt32 (n : Int) : Int :=
  let m := n % (4294967296 : Int)
  if m < 2147483648 then m else m - 4294967296

/-- JS `x << 5`: `ToInt32` the operand, shift, wrap to int32. -/
def jsShl5 (h : Int) : Int := toInt32 (toInt32 h * 32)

/-- One loop iteration: `hash = (hash << 5) - hash + str.charCodeAt(i)`.
`-` and `+` are exact here (the interim values stay far below 2^53). -/
def hashStep (h : Int) (c : Nat) : Int := jsShl5 h - h + (c : Int)

def jsHash (cs : List Nat) : Int := cs.foldl hashStep 0

/-- JS `>>> 0`: `ToUint32`. -/
def toUint32 (n : Int) : Nat := (n % (4294967296 : Int)).toNat

/-- The spec's reading of the loop: `hash = hash * 31 + charCode`
with 32-bit wrap-around. -/
def hash32 (cs : List Nat) : Nat :=
  cs.foldl (fun h c => (31 * h + c) % 4294967296) 0

/-- Digit characters used by `Number.prototype.toString(36)`: 0-9 then a-z. -/
def digitChar (d : Nat) : Char :=
  if d < 10 then Char.ofNat (48 + d) else Char.ofNat (87 + d)

/-- Little-endian base-36 digits, with explicit fuel (`n` itself suffices). -/
def base36Rev : Nat → Nat → List Nat
  | 0, _ => []
  | _ + 1, 0 => []
  | f + 1, n + 1 => (n + 1) % 36 :: base36Rev f ((n + 1) / 36)

/-- JS `n.toString(36)` for a natural number: most-significant digit first,
`"0"` for zero. -/
def toBase36 (n : Nat) : List Char :=
  if n = 0 then ['0'] else ((base36Rev n n).map digitChar).reverse

/-- The JS expression `('0000' + s).slice(-4)` on the character list of `s`. -/
def padSlice4 (s : List Char) : List Char :=
  let padded := ['0', '0', '0', '0'] ++ s
  padded.drop (padded.length - 4)

def shortHashChars (cs : List Nat) : List Char :=
  padSlice4 (toBase36 (toUint32 (jsHash cs)))

def shortHash (cs : List Nat) : String := String.mk (shortHashChars cs)

/-- The first `k` little-endian base-36 digits of `n`, zero-padded. -/
def leDigits : Nat → Nat → List Nat
  | 0, _ => []
  | k + 1, n => n % 36 :: leDigits k (n / 36)

/-- The claim's description of the output: the last four base-36 digits,
zero-padded, of the 32-bit unsigned hash value, most significant first. -/
def last4Base36 (m : Nat) : List Char :=
  ((leDigits 4 m).map digitChar).reverse

/-- The base-36 output alphabet `[0-9a-z]`: `digitChar` applied to each of
the 36 digit values. -/
def base36Alphabet : List Char := (List.range 36).map digitChar

/-! ## The markdown schema's virtual-unit id (src/src/lib/schemas.ts)

```js
markdown: (options = {}) => {
  const prepare = (val) => ({
    component: `composably:component/${shortHash(val)}`,
    markdown: val,
    options
  });
  ...
}
```
-/

structure PreparedVC (Opts : Type) where
  component : String
  markdown : List Nat
  options : Opts
deriving DecidableEq

def markdownPrepare {Opts : Type} (options : Opts) (val : List Nat) :
    PreparedVC Opts :=
  { component := "composably:component/" ++ shortHash val
    markdown := val
    options := options }

/-! ## Content values and the content traverser (src/src/lib/utils.ts)

`CVal` is the universe of parsed content: JS primitives, opaque `Date`
values, arrays and plain objects (records with insertion-ordered keys). -/

inductive Prim where
  | str (s : String)
  | num (n : Int)
  | bool (b : Bool)
  | null
deriving DecidableEq, Repr

inductive CVal where
  | prim (p : Prim)
  | date (d : Nat)
  | arr (items : List CVal)
  | obj (fields : List (String × CVal))
deriving Repr

inductive LoadErr where
  | fuelOut
  | fileNotFound (p : String)
  | typeError
deriving DecidableEq, Repr

/-- The check `typeof item === 'object' && item !== null`: arrays, records and dates
are recursed into; other primitives (and `null`) are not. -/
def isTraversable : CVal → Bool
  | .prim _ => false
  | _ => true

/-- JS `results.flat()`: flatten array elements by exactly one level. -/
def flat1 : List CVal → List CVal
  | [] => []
  | CVal.arr xs :: rest => xs ++ flat1 rest
  | v :: rest => v :: flat1 rest

/-- JS `Object.entries` on the callback's result.  Records give their fields,
arrays index-keyed elements, dates (no own enumerable properties) give `[]`,
strings index-keyed one-character strings, numbers and booleans `[]`;
`Object.entries(null)` throws a `TypeError`. -/
def jsEntries : CVal → Except LoadErr (List (String × CVal))
  | .obj fs => .ok fs
  | .arr xs => .ok ((xs.enum).map (fun p => (toString p.1, p.2)))
  | .date _ => .ok []
  | .prim (.str s) =>
      .ok ((s.data.enum).map (fun p => (toString p.1, CVal.prim (.str (String.mk [p.2])))))
  | .prim (.num _) => .ok []
  | .prim (.bool _) => .ok []
  | .prim .null => .error .typeError

/-- The generic traverser of src/src/lib/utils.ts:

```js
export const contentTraverser = async ({ obj, callback, filter }) => {
  if (Array.isArray(obj)) {
    const results = await Promise.all(
      obj.map((item) => contentTraverser({ obj: item, filter, callback })));
    return results.flat();
  }
  if (typeof obj === 'object' && obj !== null) {
    if (obj instanceof Date) return obj;
    let newObj = obj;
    if (filter(obj)) newObj = await callback(obj);
    const entries = await Promise.all(
      Object.entries(newObj).map(async ([key, item]) => {
        if (typeof item !== 'object' || item === null) return [key, item];
        return [key, await contentTraverser({ obj: item, filter, callback })];
      }));
    return Object.fromEntries(entries);
  }
  return obj;
};
```

The callback may create new nodes, so the recursion is not structural; an
explicit fuel argument makes it total, `.error .fuelOut` marking the runs
the JS original would not complete within that recursion budget. -/
def contentTraverser (filter : CVal → Bool) (callback : CVal → Except LoadErr CVal) :
    Nat → CVal → Except LoadErr CVal
  | 0, _ => .error .fuelOut
  | f + 1, v =>
    match v with
    | .arr items =>
        (items.mapM (fun it => contentTraverser filter callback f it)).map
          (fun rs => .arr (flat1 rs))
    | .date d => .ok (.date d)
    | .prim p => .ok (.prim p)
    | .obj fields => do
        let newObj ← if filter (.obj fields) then callback (.obj fields)
                     else pure (.obj fields)
        let es ← jsEntries newObj
        let es' ← es.mapM (fun kv =>
          if isTraversable kv.2 then
            (contentTraverser filter callback f kv.2).map (fun r => (kv.1, r))
          else pure kv)
        pure (.obj es')

/-! ## Fragment resolution (src/src/lib/content.ts, ContentLoader) -/

/-- Abstraction of `parseFileContent`: the file system is a finite map from
paths to already-parsed fragments; a missing path is `FileNotFoundError`.
(Extension dispatch and dependency reporting are orthogonal to the claims
about fragment merging and are not replayed here.) -/
def parseFile (fs : Assoc CVal) (p : String) : Except LoadErr CVal :=
  match lookupA fs p with
  | some v => .ok v
  | none => .error (.fileNotFound p)

/-- The own-enumerable entries contributed by `{ ...x }`: records spread
their fields, arrays index-keyed elements, strings index-keyed characters,
everything else (numbers, booleans, `null`, dates) spreads to nothing. -/
def spreadFields : CVal → List (String × CVal)
  | .obj fs => fs
  | .arr xs => (xs.enum).map (fun p => (toString p.1, p.2))
  | .prim (.str s) =>
      (s.data.enum).map (fun p => (toString p.1, CVal.prim (.str (String.mk [p.2]))))
  | _ => []

/-- JS `{ ...A, ...B }`: A's keys in their order (values overridden by B on
collision), followed by B's keys not present in A, in B's order. -/
def mergeSpread (A B : List (String × CVal)) : List (String × CVal) :=
  (A.map (fun kv => match lookupA B kv.1 with
                    | some v => (kv.1, v)
                    | none => kv))
  ++ B.filter (fun kv => !(memA A kv.1))

/-- The test `key.startsWith('_')`: the first character is an underscore.  (Spelled
out on the character list so that concrete instances reduce.) -/
def startsWithU (k : String) : Bool :=
  match k.data with
  | [] => false
  | c :: _ => c == '_'

/-- Step 2 of `loadAndAttachFragments`: walk the snapshot of the keys; a key
`_name` (length > 1) whose current value is a string is a named fragment
reference: parse it, record it under `name` in `processedFragments`, and
delete the `_name` key.  Returns `(processedFragments, currentResult)`. -/
def attachNamed (fs : Assoc CVal) :
    List String → List (String × CVal) → List (String × CVal) →
    Except LoadErr (List (String × CVal) × List (String × CVal))
  | [], pf, cur => .ok (pf, cur)
  | k :: rest, pf, cur =>
      if startsWithU k && decide (1 < k.length) then
        match lookupA cur k with
        | some (.prim (.str p)) => do
            let frag ← parseFile fs p
            attachNamed fs rest (pf ++ [(k.drop 1, frag)]) (eraseA cur k)
        | _ => attachNamed fs rest pf cur
      else attachNamed fs rest pf cur

/-- The method `ContentLoader.loadAndAttachFragments`:

```js
let currentResult = { ...obj };
if ('_' in currentResult && typeof currentResult._ === 'string') {
  const fragmentContent = await this.parseFileContent(toAbsolutePath(currentResult._));
  delete currentResult._;
  currentResult = { ...fragmentContent, ...currentResult };
}
const processedFragments = {};
for (const key of Object.keys(currentResult)) {
  if (key.startsWith('_') && key.length > 1 && typeof currentResult[key] === 'string') {
    processedFragments[key.slice(1)] = await this.parseFileContent(...);
    delete currentResult[key];
  }
}
currentResult = { ...processedFragments, ...currentResult };
return currentResult;
```

The traverser's filter guarantees the argument is a record; other values
pass through untouched. -/
def loadAndAttachFragments (fs : Assoc CVal) (v : CVal) : Except LoadErr CVal :=
  match v with
  | .obj fields => do
      let cur₁ ←
        match lookupA fields "_" with
        | some (.prim (.str p)) => do
            let frag ← parseFile fs p
            pure (mergeSpread (spreadFields frag) (eraseA fields "_"))
        | _ => pure fields
      let r ← attachNamed fs (cur₁.map Prod.fst) [] cur₁
      pure (.obj (mergeSpread r.1 r.2))
  | other => pure other

/-- Filter of the first traversal pass: a record with at least one key
starting with `_`. -/
def fragmentFilter : CVal → Bool
  | .obj fields => fields.any (fun kv => startsWithU kv.1)
  | _ => false

/-- The complete fragment-resolution pass (pass 1 of `loadContent`). -/
def fragmentPass (fs : Assoc CVal) (fuel : Nat) (v : CVal) : Except LoadErr CVal :=
  contentTraverser fragmentFilter (loadAndAttachFragments fs) fuel v

/-- Modelled from the spec: claim C5's description of root-fragment
resolution, used only for comparison against the code's behaviour.  "Treat
`_` as a path to a fragment file; parse it, recursively resolve fragments
within it, then merge its fields under the current record's fields (current
record's own fields win on key collision), and drop the `_` key." -/
def specResolveRoot (fs : Assoc CVal) : Nat → CVal → Except LoadErr CVal
  | 0, _ => .error .fuelOut
  | f + 1, v =>
    match v with
    | .obj fields =>
        match lookupA fields "_" with
        | some (.prim (.str p)) => do
            let frag ← parseFile fs p
            let resolved ← specResolveRoot fs f frag
            pure (.obj (mergeSpread (spreadFields resolved) (eraseA fields "_")))
        | _ => pure (.obj fields)
    | other => pure other

/-- C5 counterexample data: the referenced fragment `a` itself carries a
root `_` reference to `b`. -/
def fsC5 : Assoc CVal :=
  [("a", .obj [("_", .prim (.str "b")), ("foo", .prim (.num 1))]),
   ("b", .obj [("bar", .prim (.num 2))])]

def rC5 : CVal := .obj [("_", .prim (.str "a"))]

/-- C8 data: fragment file `a` whose named reference `_x` points back to
`a` itself. -/
def fsC8 : Assoc CVal := [("a", .obj [("_x", .prim (.str "a"))])]

def cycC8 : CVal := .obj [("_x", .prim (.str "a"))]

/-- Demonstration filter for C7: records carrying a key `m`. -/
def markFilter : CVal → Bool
  | .obj fields => (lookupA fields "m").isSome
  | _ => false

/-- Demonstration transform for C7: rewrite a marked record into `seen`,
introducing (for non-zero marks) a fresh nested record that is itself
marked — visible in the output only because the traverser descends into the
transform's result. -/
def markCallback : CVal → Except LoadErr CVal
  | .obj fields =>
      match lookupA fields "m" with
      | some (.prim (.num n)) =>
          if n = 0 then .ok (.obj [("seen", .prim (.num 0))])
          else .ok (.obj [("seen", .prim (.num n)),
                          ("extra", .obj [("m", .prim (.num 0))])])
      | _ => .ok (.obj fields)
  | v => .ok v

/-! ## Build cache and dependency graph (src/src/lib/utils.ts, cache section)

State of the four module-level maps, plus two bookkeeping counters that are
not part of the JS state: `nextPromiseId` names promises (callers comparing
promise ids model JS reference equality of the returned promise), and
`loadsStarted` counts how many underlying `loadContent` computations were
ever started. -/

structure VCEntry where
  data : Nat
  sourceEntryPath : String
deriving DecidableEq, Repr

structure CacheState where
  pageCache : Assoc Nat
  virtualComponentCache : Assoc VCEntry
  fileToContentEntries : Assoc (List String)
  entryToVirtualComponents : Assoc (List String)
  nextPromiseId : Nat
  loadsStarted : Nat
deriving DecidableEq, Repr

def emptyCache : CacheState :=
  { pageCache := []
    virtualComponentCache := []
    fileToContentEntries := []
    entryToVirtualComponents := []
    nextPromiseId := 0
    loadsStarted := 0 }

/-- A small populated cache state used to exercise the invalidation API:
two loaded entries `p1`/`p2`, each owning one virtual component, with
`p1` depending on file `F` and `p2` on file `G`. -/
def sampleCache : CacheState :=
  { pageCache := [("p1", 0), ("p2", 1)]
    virtualComponentCache := [("v1", ⟨10, "p1"⟩), ("v2", ⟨11, "p2"⟩)]
    fileToContentEntries := [("F", ["p1"]), ("G", ["p2"])]
    entryToVirtualComponents := [("p1", ["v1"]), ("p2", ["v2"])]
    nextPromiseId := 2
    loadsStarted := 2 }

/-- The synchronous part of `virtualPageSource(entryPath, config)`: on a
cache hit return the stored promise and change nothing; on a miss start a
new `loadContent` computation, store its promise in `pageCache` and an
empty set in `entryToVirtualComponents`, and return the fresh promise.
Result: (state, promise id, whether a new computation was started).
(The page-cache entry's `sourceFiles` set aliases the computation's
`currentSourceFiles` and is never read by this layer's other operations,
so it is tracked with the computation, not in the state.) -/
def vpsCall (s : CacheState) (entryPath : String) : CacheState × Nat × Bool :=
  match lookupA s.pageCache entryPath with
  | some pid => (s, pid, false)
  | none =>
      let pid := s.nextPromiseId
      ({ s with
          pageCache := insertA s.pageCache entryPath pid
          entryToVirtualComponents := insertA s.entryToVirtualComponents entryPath []
          nextPromiseId := pid + 1
          loadsStarted := s.loadsStarted + 1 },
       pid, true)

/-- The two callbacks a running computation may fire, in order. -/
inductive LoadEvent where
  | reportFile (f : String)
  | reportVC (id : String) (data : Nat)
deriving DecidableEq, Repr

/-- One callback invocation.  The accumulator carries the state together
with the computation's `currentSourceFiles` and
`generatedVirtualComponents` sets.

File Dependency Callback: ensure `fileToContentEntries` has a set for the
file; if the entry path is not yet in it, add it there and record the file
in `currentSourceFiles`, otherwise skip.

Virtual Component Callback: store the component in
`virtualComponentCache` keyed by its id with this entry as
`sourceEntryPath`, and record the id in `generatedVirtualComponents`. -/
def applyLoadEvent (entryPath : String)
    (acc : CacheState × List String × List String) (ev : LoadEvent) :
    CacheState × List String × List String :=
  match ev with
  | .reportFile f =>
      let old := (lookupA acc.1.fileToContentEntries f).getD []
      if entryPath ∈ old then
        ({ acc.1 with fileToContentEntries := insertA acc.1.fileToContentEntries f old },
         acc.2.1, acc.2.2)
      else
        ({ acc.1 with
            fileToContentEntries := insertA acc.1.fileToContentEntries f (old ++ [entryPath]) },
         insertS acc.2.1 f, acc.2.2)
  | .reportVC id data =>
      ({ acc.1 with
          virtualComponentCache := insertA acc.1.virtualComponentCache id ⟨data, entryPath⟩ },
       acc.2.1, insertS acc.2.2 id)

def runEvents (entryPath : String) (s : CacheState) (events : List LoadEvent) :
    CacheState × List String × List String :=
  events.foldl (applyLoadEvent entryPath) (s, [], [])

/-- The `.catch` handler of the processing promise:

```js
pageCache.delete(entryPath);
currentSourceFiles.forEach((f) => fileToContentEntries.get(f)?.delete(entryPath));
generatedVirtualComponents.forEach((vcId) => virtualComponentCache.delete(vcId));
entryToVirtualComponents.delete(entryPath);
throw error;
```
-/
def rollbackFailedLoad (entryPath : String) (s : CacheState)
    (csf gvc : List String) : CacheState :=
  { s with
      pageCache := eraseA s.pageCache entryPath
      fileToContentEntries :=
        csf.foldl (fun m f =>
          match lookupA m f with
          | some es => insertA m f (es.filter (fun x => decide (x ≠ entryPath)))
          | none => m) s.fileToContentEntries
      virtualComponentCache :=
        gvc.foldl (fun m v => eraseA m v) s.virtualComponentCache
      entryToVirtualComponents := eraseA s.entryToVirtualComponents entryPath }

/-- A full `virtualPageSource` lifecycle whose computation fails with
`err` after firing `events`: call phase (assumed cache miss), the events,
then the rollback; the error is re-thrown to the awaiting caller. -/
def vpsRunFailing (s : CacheState) (entryPath : String)
    (events : List LoadEvent) (err : Nat) : CacheState × Except Nat Unit :=
  let s₁ := (vpsCall s entryPath).1
  let r := runEvents entryPath s₁ events
  (rollbackFailedLoad entryPath r.1 r.2.1 r.2.2, Except.error err)

/-- Inner loop of `invalidateAndGetAffectedItems`: delete one virtual
component, recording it when it was actually present. -/
def invalProcessVc (acc : Assoc VCEntry × List String) (v : String) :
    Assoc VCEntry × List String :=
  if (lookupA acc.1 v).isSome then (eraseA acc.1 v, acc.2 ++ [v])
  else acc

/-- Outer loop body of `invalidateAndGetAffectedItems` for one affected
entry: delete its page-cache entry (recording it if present), delete every
virtual component listed for it (recording those present), and drop its
`entryToVirtualComponents` list. -/
def invalProcessEntry (acc : CacheState × List String × List String)
    (e : String) : CacheState × List String × List String :=
  let s := acc.1
  let hit := (lookupA s.pageCache e).isSome
  let pc := if hit then eraseA s.pageCache e else s.pageCache
  let aE := if hit then acc.2.1 ++ [e] else acc.2.1
  match lookupA s.entryToVirtualComponents e with
  | some vcs =>
      let r := vcs.foldl invalProcessVc (s.virtualComponentCache, acc.2.2)
      ({ s with
          pageCache := pc
          virtualComponentCache := r.1
          entryToVirtualComponents := eraseA s.entryToVirtualComponents e },
       aE, r.2)
  | none => ({ s with pageCache := pc }, aE, acc.2.2)

/-- The function `invalidateAndGetAffectedItems(filePath)`: if some entries depend on the
file, process each of them and finally drop the file's dependency set;
returns (state, affectedEntryPaths, affectedVirtualComponentIds). -/
def invalidateAndGetAffectedItems (s : CacheState) (filePath : String) :
    CacheState × List String × List String :=
  match lookupA s.fileToContentEntries filePath with
  | some deps =>
      if deps.isEmpty then (s, [], [])
      else
        let r := deps.foldl invalProcessEntry (s, [], [])
        ({ r.1 with fileToContentEntries := eraseA r.1.fileToContentEntries filePath },
         r.2.1, r.2.2)
  | none => (s, [], [])

/-! ## Lemmas about the map and set model -/

theorem lookupA_eraseA {α : Type} (m : Assoc α) (q r : String) :
    lookupA (eraseA m q) r = if r = q then none else lookupA m r := by
  induction m with
  | nil => simp [eraseA, lookupA]
  | cons p m ih =>
      obtain ⟨k, v⟩ := p
      by_cases hkq : k = q <;> by_cases hrq : r = q <;> by_cases hrk : r = k <;>
        simp_all [eraseA, List.filter_cons, lookupA]

theorem lookupA_append {α : Type} (m m' : Assoc α) (r : String) :
    lookupA (m ++ m') r =
      match lookupA m r with
      | some v => some v
      | none => lookupA m' r := by
  induction m with
  | nil => simp [lookupA]
  | cons p m ih =>
      obtain ⟨k, v⟩ := p
      by_cases hrk : r = k <;> simp [lookupA, hrk, ih]

theorem lookupA_insertA {α : Type} (m : Assoc α) (k : String) (v : α) (r : String) :
    lookupA (insertA m k v) r = if r = k then some v else lookupA m r := by
  induction m with
  | nil => simp [insertA, lookupA]
  | cons p m ih =>
      obtain ⟨k₁, v₁⟩ := p
      by_cases h1 : k₁ = k <;> by_cases hrk : r = k <;> by_cases hrk1 : r = k₁ <;>
        simp_all [insertA, lookupA]

theorem mem_insertS (s : List String) (x y : String) :
    y ∈ insertS s x ↔ y ∈ s ∨ y = x := by
  unfold insertS
  by_cases h : x ∈ s
  · simp only [h, if_true]
    constructor
    · exact Or.inl
    · rintro (hy | rfl)
      · exact hy
      · exact h
  · simp [h]

theorem countKeyA_insertA {α : Type} (m : Assoc α) (k : String) (v : α) :
    countKeyA (insertA m k v) k =
      if memA m k then countKeyA m k else countKeyA m k + 1 := by
  induction m with
  | nil => simp [insertA, countKeyA, memA, lookupA, List.filter_cons]
  | cons p m ih =>
      obtain ⟨k₁, v₁⟩ := p
      by_cases h1 : k₁ = k
      · simp_all [insertA, countKeyA, memA, lookupA, List.filter_cons]
      · have h1' : ¬(k = k₁) := fun h => h1 h.symm
        simp_all [insertA, countKeyA, memA, lookupA, List.filter_cons]

theorem countKeyA_eq_zero {α : Type} (m : Assoc α) (k : String) :
    countKeyA m k = 0 ↔ lookupA m k = none := by
  induction m with
  | nil => simp [countKeyA, lookupA]
  | cons p m ih =>
      obtain ⟨k₁, v₁⟩ := p
      by_cases h1 : k₁ = k
      · simp_all [countKeyA, lookupA, List.filter_cons]
      · have h1' : ¬(k = k₁) := fun h => h1 h.symm
        simp_all [countKeyA, lookupA, List.filter_cons]

/-! ## Claim theorems: cache single flight and id determinism -/

/-- C1: For every entry path, at most one page computation is in flight or
cached at a time.  If `virtualPageSource` is called while a previous
computation for the path is pending or cached (its promise is in
`pageCache`), it returns that same stored promise, changes no state, and
starts no new computation; and a call that misses starts exactly one
underlying load, after which an immediately following call shares its
promise. -/
theorem virtualPageSource_single_flight (s : CacheState) (e : String) :
    (∀ pid, lookupA s.pageCache e = some pid → vpsCall s e = (s, pid, false))
    ∧ (lookupA s.pageCache e = none →
        vpsCall (vpsCall s e).1 e = ((vpsCall s e).1, (vpsCall s e).2.1, false)
        ∧ (vpsCall s e).2.2 = true
        ∧ (vpsCall s e).1.loadsStarted = s.loadsStarted + 1) := by
  constructor
  · intro pid h
    simp [vpsCall, h]
  · intro h
    refine ⟨?_, ?_, ?_⟩ <;> simp [vpsCall, h, lookupA_insertA]

/-- Witness for C1 at a concrete state: from the empty cache, the first call
for "home" starts one load and the second call returns the same promise
without starting another. -/
theorem virtualPageSource_single_flight_witness :
    (vpsCall (vpsCall emptyCache "home").1 "home"
        = ((vpsCall emptyCache "home").1, (vpsCall emptyCache "home").2.1, false)
      ∧ (vpsCall emptyCache "home").2.2 = true
      ∧ (vpsCall emptyCache "home").1.loadsStarted = emptyCache.loadsStarted + 1)
    ∧ vpsCall (vpsCall emptyCache "home").1 "home"
        = ((vpsCall emptyCache "home").1, 0, false) :=
  ⟨(virtualPageSource_single_flight emptyCache "home").2 rfl,
   (virtualPageSource_single_flight (vpsCall emptyCache "home").1 "home").1 0 rfl⟩

/-- C4: two inline embedded contents with identical raw text and identical
options are assigned equal virtual unit ids, and registering both through
the virtual-component callback leaves exactly one cache entry under that
id. -/
theorem markdown_id_same_content_options (Opts : Type) (v1 v2 : List Nat)
    (o1 o2 : Opts) (hv : v1 = v2) (ho : o1 = o2) :
    (markdownPrepare o1 v1).component = (markdownPrepare o2 v2).component
    ∧ ∀ (s : CacheState) (csf gvc : List String) (e : String) (d1 d2 : Nat),
        countKeyA s.virtualComponentCache (markdownPrepare o1 v1).component ≤ 1 →
        countKeyA
          ((applyLoadEvent e
              (applyLoadEvent e (s, csf, gvc)
                (.reportVC (markdownPrepare o1 v1).component d1))
              (.reportVC (markdownPrepare o2 v2).component d2)).1.virtualComponentCache)
          (markdownPrepare o1 v1).component = 1 := by
  subst hv; subst ho
  refine ⟨rfl, ?_⟩
  intro s csf gvc e d1 d2 hle
  simp only [applyLoadEvent]
  rw [countKeyA_insertA]
  have hmem2 : memA (insertA s.virtualComponentCache
      (markdownPrepare o1 v1).component ⟨d1, e⟩) (markdownPrepare o1 v1).component = true := by
    simp [memA, lookupA_insertA]
  rw [if_pos hmem2, countKeyA_insertA]
  by_cases hm : memA s.virtualComponentCache (markdownPrepare o1 v1).component = true
  · rw [if_pos hm]
    have h0 : countKeyA s.virtualComponentCache (markdownPrepare o1 v1).component ≠ 0 := by
      rw [Ne, countKeyA_eq_zero]
      intro hnone
      rw [memA, hnone] at hm
      simp at hm
    omega
  · rw [if_neg hm]
    have h0 : countKeyA s.virtualComponentCache (markdownPrepare o1 v1).component = 0 := by
      rw [countKeyA_eq_zero]
      rw [memA] at hm
      exact Option.not_isSome_iff_eq_none.mp (by simpa using hm)
    omega

/-- Witness for C4 at concrete inputs: raw text "hi" with options `7`
registered twice into the empty cache leaves one entry. -/
theorem markdown_id_same_content_options_witness :
    (markdownPrepare (7 : Nat) [104, 105]).component
        = (markdownPrepare (7 : Nat) [104, 105]).component
    ∧ countKeyA
        ((applyLoadEvent "p"
            (applyLoadEvent "p" (emptyCache, [], [])
              (.reportVC (markdownPrepare (7 : Nat) [104, 105]).component 1))
            (.reportVC (markdownPrepare (7 : Nat) [104, 105]).component 2)).1.virtualComponentCache)
        (markdownPrepare (7 : Nat) [104, 105]).component = 1 :=
  ⟨(markdown_id_same_content_options Nat [104, 105] [104, 105] 7 7 rfl rfl).1,
   (markdown_id_same_content_options Nat [104, 105] [104, 105] 7 7 rfl rfl).2
      emptyCache [] [] "p" 1 2 (by decide)⟩

/-- C9: the virtual unit id depends only on the raw embedded text, not on
the options: distinct option values yield the same id for the same raw
text, so identical text with different options aliases to a single
virtual-unit cache entry. -/
theorem unit_id_independent_of_options (Opts : Type) (val : List Nat)
    (o1 o2 : Opts) (h : o1 ≠ o2) :
    (markdownPrepare o1 val).component = (markdownPrepare o2 val).component := rfl

/-- Witness for C9: options `0` and `1` give the same id for the text
"hi". -/
theorem unit_id_independent_of_options_witness :
    (markdownPrepare (0 : Nat) [104, 105]).component
      = (markdownPrepare (1 : Nat) [104, 105]).component :=
  unit_id_independent_of_options Nat [104, 105] 0 1 (by decide)

/-! ## Lemmas: shortHash agrees with the 31-multiplier mod-2^32 hash -/

theorem emod_idem (x : Int) :
    x % 4294967296 % 4294967296 = x % 4294967296 :=
  Int.emod_emod_of_dvd x dvd_rfl

theorem toInt32_modeq (x : Int) : toInt32 x ≡ x [ZMOD 4294967296] := by
  show toInt32 x % 4294967296 = x % 4294967296
  unfold toInt32
  by_cases h : x % 4294967296 < 2147483648
  · simpa [h] using emod_idem x
  · have h2 : (x % 4294967296 - 4294967296) % 4294967296 = x % 4294967296 := by
      rw [Int.sub_emod, Int.emod_self, sub_zero, emod_idem, emod_idem]
    simpa [h] using h2

theorem hashStep_modeq (h : Int) (c : Nat) :
    hashStep h c ≡ 31 * h + c [ZMOD 4294967296] := by
  have m1 : toInt32 (toInt32 h * 32) ≡ h * 32 [ZMOD 4294967296] :=
    (toInt32_modeq _).trans (Int.ModEq.mul_right 32 (toInt32_modeq h))
  have m2 : hashStep h c ≡ h * 32 - h + c [ZMOD 4294967296] :=
    Int.ModEq.add_right _ (Int.ModEq.sub_right h m1)
  have e : h * 32 - h + (c : Int) = 31 * h + c := by ring
  rw [e] at m2
  exact m2

theorem jsHash_fold_modeq : ∀ (cs : List Nat) (h : Int) (m : Nat),
    h ≡ (m : Int) [ZMOD 4294967296] →
    cs.foldl hashStep h ≡
      ((cs.foldl (fun h c => (31 * h + c) % 4294967296) m : Nat) : Int)
      [ZMOD 4294967296] := by
  intro cs
  induction cs with
  | nil => intro h m hm; simpa using hm
  | cons c cs ih =>
      intro h m hm
      simp only [List.foldl_cons]
      refine ih _ _ ?_
      have s1 := hashStep_modeq h c
      have s2 : (31 : Int) * h + (c : Int) ≡ 31 * (m : Int) + (c : Int)
          [ZMOD 4294967296] :=
        Int.ModEq.add_right _ (Int.ModEq.mul_left 31 hm)
      have s4 : (((31 * m + c) % 4294967296 : Nat) : Int) ≡
          31 * (m : Int) + (c : Int) [ZMOD 4294967296] := by
        have e : (((31 * m + c) % 4294967296 : Nat) : Int)
            = (31 * (m : Int) + (c : Int)) % 4294967296 := by
          push_cast
          ring_nf
        rw [e]
        exact Int.emod_emod_of_dvd _ dvd_rfl
      exact (s1.trans s2).trans s4.symm

theorem hash32_fold_lt : ∀ (cs : List Nat) (m : Nat), m < 4294967296 →
    cs.foldl (fun h c => (31 * h + c) % 4294967296) m < 4294967296 := by
  intro cs
  induction cs with
  | nil => intro m hm; simpa using hm
  | cons c cs ih =>
      intro m hm
      simp only [List.foldl_cons]
      exact ih _ (Nat.mod_lt _ (by norm_num))

theorem hash32_lt (cs : List Nat) : hash32 cs < 4294967296 :=
  hash32_fold_lt cs 0 (by norm_num)

theorem toUint32_jsHash (cs : List Nat) : toUint32 (jsHash cs) = hash32 cs := by
  have h : jsHash cs % 4294967296 = ((hash32 cs : Nat) : Int) % 4294967296 :=
    jsHash_fold_modeq cs 0 0 (Int.ModEq.refl 0)
  unfold toUint32
  rw [h]
  have hlt := hash32_lt cs
  omega

/-! ## Lemmas: base-36 digit lists and the 4-character slice -/

theorem base36Rev_zero (f : Nat) : base36Rev f 0 = [] := by
  cases f <;> rfl

theorem leDigits_zero (k : Nat) : leDigits k 0 = List.replicate k 0 := by
  induction k with
  | zero => rfl
  | succ k ih => simp [leDigits, ih, List.replicate_succ]

theorem leDigits_length (k n : Nat) : (leDigits k n).length = k := by
  induction k generalizing n with
  | zero => rfl
  | succ k ih => simp [leDigits, ih]

theorem leDigits_lt (k n : Nat) : ∀ x ∈ leDigits k n, x < 36 := by
  induction k generalizing n with
  | zero => simp [leDigits]
  | succ k ih =>
      intro x hx
      simp only [leDigits, List.mem_cons] at hx
      rcases hx with rfl | hx
      · exact Nat.mod_lt _ (by norm_num)
      · exact ih _ x hx

theorem take_append_replicate (xs : List Nat) :
    ∀ (k j : Nat), k ≤ j →
      (xs ++ List.replicate j 0).take k = (xs ++ List.replicate k 0).take k := by
  induction xs with
  | nil =>
      intro k j hkj
      simp only [List.nil_append]
      rw [List.take_replicate, List.take_replicate,
        Nat.min_eq_left hkj, Nat.min_self]
  | cons x xs ih =>
      intro k j hkj
      cases k with
      | zero => simp
      | succ k =>
          simp only [List.cons_append, List.take_succ_cons]
          rw [ih k j (Nat.le_of_succ_le hkj), ← ih k k (Nat.le_refl k),
            ih k (k + 1) (Nat.le_succ k)]

theorem base36Rev_padTake : ∀ (k f n : Nat), n ≤ f →
    (base36Rev f n ++ List.replicate k 0).take k = leDigits k n := by
  intro k
  induction k with
  | zero => intro f n _; simp [leDigits]
  | succ k ih =>
      intro f n hnf
      by_cases hn : n = 0
      · subst hn
        rw [base36Rev_zero]
        simp only [List.nil_append]
        rw [List.take_replicate, Nat.min_self, leDigits_zero]
      · obtain ⟨n', rfl⟩ : ∃ n', n = n' + 1 := ⟨n - 1, by omega⟩
        obtain ⟨f', rfl⟩ : ∃ f', f = f' + 1 := ⟨f - 1, by omega⟩
        show ((n' + 1) % 36 :: base36Rev f' ((n' + 1) / 36) ++
            List.replicate (k + 1) 0).take (k + 1) = leDigits (k + 1) (n' + 1)
        simp only [List.cons_append, List.take_succ_cons, leDigits]
        rw [take_append_replicate _ k (k + 1) (Nat.le_succ k)]
        exact congrArg _ (ih f' ((n' + 1) / 36) (by
          have := Nat.div_lt_self (Nat.succ_pos n') (by norm_num : 1 < 36)
          omega))

theorem reverse_take_eq_drop_reverse {α : Type} :
    ∀ (l : List α) (k : Nat), (l.take k).reverse = l.reverse.drop (l.length - k) := by
  intro l
  induction l with
  | nil => intro k; simp
  | cons a t ih =>
      intro k
      cases k with
      | zero => simp
      | succ k =>
          simp only [List.take_succ_cons, List.reverse_cons, List.length_cons]
          have hlen : t.length + 1 - (k + 1) = t.length - k := by omega
          rw [hlen]
          have hle : t.length - k ≤ t.reverse.length := by
            simp only [List.length_reverse]
            omega
          rw [List.drop_append_of_le_length hle, ih k]

theorem pad_drop_eq_take_reverse {α : Type} (a : α) (l : List α) :
    (List.replicate 4 a ++ l.reverse).drop l.length =
      ((l ++ List.replicate 4 a).take 4).reverse := by
  by_cases hL : l.length ≤ 4
  · rw [List.drop_append_eq_append_drop]
    rw [List.drop_replicate]
    have h0 : l.length - (List.replicate 4 a).length = 0 := by simp; omega
    rw [h0, List.drop_zero]
    rw [List.take_append_eq_append_take]
    rw [List.take_of_length_le hL, List.take_replicate]
    have hmin : min (4 - l.length) 4 = 4 - l.length := by omega
    rw [hmin, List.reverse_append, List.reverse_replicate]
  · rw [List.drop_append_eq_append_drop]
    have h1 : (List.replicate 4 a).drop l.length = [] := by
      rw [List.drop_replicate]
      have : 4 - l.length = 0 := by omega
      simp [this]
    rw [h1, List.nil_append]
    have h2 : l.length - (List.replicate 4 a).length = l.length - 4 := by simp
    rw [h2]
    rw [List.take_append_eq_append_take]
    have h3 : 4 - l.length = 0 := by omega
    rw [h3, List.take_zero, List.append_nil]
    rw [reverse_take_eq_drop_reverse l 4]

theorem padSlice4_def (s : List Char) :
    padSlice4 s =
      (['0', '0', '0', '0'] ++ s).drop ((['0', '0', '0', '0'] ++ s).length - 4) := rfl

theorem padSlice4_toBase36 (n : Nat) : padSlice4 (toBase36 n) = last4Base36 n := by
  by_cases hn : n = 0
  · subst hn; rfl
  · rw [padSlice4_def, toBase36, if_neg hn, last4Base36]
    have hlen :
        ((['0', '0', '0', '0'] : List Char) ++
          ((base36Rev n n).map digitChar).reverse).length - 4
        = ((base36Rev n n).map digitChar).length := by
      simp
    rw [hlen]
    rw [show (['0', '0', '0', '0'] : List Char) = List.replicate 4 '0' from rfl]
    rw [pad_drop_eq_take_reverse '0' ((base36Rev n n).map digitChar)]
    congr 1
    rw [← base36Rev_padTake 4 n n (Nat.le_refl n), List.map_take]
    congr 1
    rw [List.map_append, List.map_replicate]
    rfl

theorem leDigits4_mod (n : Nat) : leDigits 4 (n % 1679616) = leDigits 4 n := by
  have h1 : n % 1679616 % 36 = n % 36 := by omega
  have h2 : n % 1679616 / 36 % 36 = n / 36 % 36 := by omega
  have h3 : n % 1679616 / 36 / 36 % 36 = n / 36 / 36 % 36 := by omega
  have h4 : n % 1679616 / 36 / 36 / 36 % 36 = n / 36 / 36 / 36 % 36 := by omega
  simp [leDigits, h1, h2, h3, h4]

theorem digitChar_mem_alphabet : ∀ d : Nat, d < 36 → digitChar d ∈ base36Alphabet := by
  intro d hd
  exact List.mem_map.mpr ⟨d, List.mem_range.mpr hd, rfl⟩

/-! ## Claim theorem: shortHash -/

/-- C10: `shortHash` always returns exactly 4 characters over the base-36
alphabet `[0-9a-z]`, equal to the last four base-36 digits (zero-padded) of
the 32-bit unsigned value of the iterated hash
(`hash = hash * 31 + charCode`, wrapped to 32 bits), so the id space has at
most 36^4 values; distinct raw contents can collide (e.g. "Aa" and "BB"). -/
theorem shortHash_last4_base36 :
    (∀ cs : List Nat,
        (shortHash cs).length = 4
        ∧ (∀ ch ∈ (shortHash cs).data, ch ∈ base36Alphabet)
        ∧ (shortHash cs).data = last4Base36 (hash32 cs)
        ∧ ∃ m, m < 36 ^ 4 ∧ (shortHash cs).data = last4Base36 m)
    ∧ shortHash [65, 97] = shortHash [66, 66]
    ∧ ([65, 97] : List Nat) ≠ [66, 66] := by
  refine ⟨?_, rfl, by decide⟩
  intro cs
  have hd : (shortHash cs).data = last4Base36 (hash32 cs) := by
    show shortHashChars cs = _
    unfold shortHashChars
    rw [toUint32_jsHash, padSlice4_toBase36]
  refine ⟨?_, ?_, hd, ?_⟩
  · show (shortHash cs).data.length = 4
    rw [hd]
    simp [last4Base36, leDigits_length]
  · intro ch hch
    rw [hd] at hch
    simp only [last4Base36, List.mem_reverse, List.mem_map] at hch
    obtain ⟨d, hd36, rfl⟩ := hch
    exact digitChar_mem_alphabet d (leDigits_lt 4 (hash32 cs) d hd36)
  · refine ⟨hash32 cs % 1679616, ?_, ?_⟩
    · have : (1679616 : Nat) = 36 ^ 4 := by norm_num
      omega
    · rw [hd]
      unfold last4Base36
      rw [leDigits4_mod]

/-! ## Lemmas: traverser unfolding equations -/

theorem contentTraverser_zero (filter : CVal → Bool)
    (cb : CVal → Except LoadErr CVal) (v : CVal) :
    contentTraverser filter cb 0 v = .error .fuelOut := rfl

theorem contentTraverser_prim (filter : CVal → Bool)
    (cb : CVal → Except LoadErr CVal) (f : Nat) (p : Prim) :
    contentTraverser filter cb (f + 1) (.prim p) = .ok (.prim p) := rfl

theorem contentTraverser_date (filter : CVal → Bool)
    (cb : CVal → Except LoadErr CVal) (f : Nat) (d : Nat) :
    contentTraverser filter cb (f + 1) (.date d) = .ok (.date d) := rfl

theorem contentTraverser_arr (filter : CVal → Bool)
    (cb : CVal → Except LoadErr CVal) (f : Nat) (items : List CVal) :
    contentTraverser filter cb (f + 1) (.arr items)
      = (items.mapM (fun it => contentTraverser filter cb f it)).map
          (fun rs => CVal.arr (flat1 rs)) := rfl

theorem contentTraverser_obj (filter : CVal → Bool)
    (cb : CVal → Except LoadErr CVal) (f : Nat) (fields : List (String × CVal)) :
    contentTraverser filter cb (f + 1) (.obj fields)
      = (if filter (.obj fields) then cb (.obj fields) else pure (.obj fields)) >>=
          (fun newObj => jsEntries newObj >>=
            (fun es => es.mapM (fun kv =>
                if isTraversable kv.2 then
                  (contentTraverser filter cb f kv.2).map (fun r => (kv.1, r))
                else pure kv) >>=
              (fun es2 => pure (.obj es2)))) := by
  conv_lhs => rw [contentTraverser]
  by_cases h : filter (.obj fields) = true
  · rw [if_pos h, if_pos h]
  · rw [if_neg h, if_neg h]

theorem flat1_prims : ∀ xs : List Prim, flat1 (xs.map CVal.prim) = xs.map CVal.prim := by
  intro xs
  induction xs with
  | nil => rfl
  | cons x xs ih => simp [flat1, ih]

theorem flat1_arrs : ∀ xss : List (List CVal), flat1 (xss.map CVal.arr) = xss.flatten := by
  intro xss
  induction xss with
  | nil => rfl
  | cons xs xss ih => simp [flat1, ih]

theorem mapM_traverse_prims (filter : CVal → Bool)
    (cb : CVal → Except LoadErr CVal) (f : Nat) :
    ∀ xs : List Prim,
      (xs.map CVal.prim).mapM (fun it => contentTraverser filter cb (f + 1) it)
        = Except.ok (xs.map CVal.prim) := by
  intro xs
  induction xs with
  | nil => rfl
  | cons x xs ih =>
      simp only [List.map_cons, List.mapM_cons, ih, contentTraverser_prim]
      rfl

theorem traverse_arr_of_prims (filter : CVal → Bool)
    (cb : CVal → Except LoadErr CVal) (f : Nat) (xs : List Prim) :
    contentTraverser filter cb (f + 2) (.arr (xs.map CVal.prim))
      = .ok (.arr (xs.map CVal.prim)) := by
  rw [contentTraverser_arr, mapM_traverse_prims]
  show Except.ok (CVal.arr (flat1 (xs.map CVal.prim))) = _
  rw [flat1_prims]

theorem mapM_traverse_arrs (filter : CVal → Bool)
    (cb : CVal → Except LoadErr CVal) (k : Nat) :
    ∀ xss : List (List Prim),
      (xss.map (fun xs => CVal.arr (xs.map CVal.prim))).mapM
          (fun it => contentTraverser filter cb (k + 2) it)
        = Except.ok (xss.map (fun xs => CVal.arr (xs.map CVal.prim))) := by
  intro xss
  induction xss with
  | nil => rfl
  | cons xs xss ih =>
      simp only [List.map_cons, List.mapM_cons, traverse_arr_of_prims, ih]
      rfl

/-! ## Claim theorems: the content traverser -/

/-- C6: on a sequence the traverser recurses into each element and then
flattens the results by one level, so a sequence of sequences of scalars
loses one nesting level — for every filter and callback, in particular when
no node matches the filter. -/
theorem traverser_flattens_sequences (filter : CVal → Bool)
    (cb : CVal → Except LoadErr CVal) :
    (∀ (items : List CVal) (f : Nat),
        contentTraverser filter cb (f + 1) (.arr items)
          = (items.mapM (fun it => contentTraverser filter cb f it)).map
              (fun rs => CVal.arr (flat1 rs)))
    ∧ (∀ (fuel : Nat) (xss : List (List Prim)), 3 ≤ fuel →
        contentTraverser filter cb fuel
            (.arr (xss.map (fun xs => .arr (xs.map CVal.prim))))
          = .ok (.arr ((xss.flatten).map CVal.prim))) := by
  constructor
  · intro items f
    exact contentTraverser_arr filter cb f items
  · intro fuel xss hf
    obtain ⟨k, rfl⟩ : ∃ k, fuel = k + 3 := ⟨fuel - 3, by omega⟩
    rw [show k + 3 = (k + 2) + 1 by omega, contentTraverser_arr,
      mapM_traverse_arrs]
    show Except.ok (CVal.arr (flat1 _)) = _
    have h1 : xss.map (fun xs => CVal.arr (xs.map CVal.prim))
        = (xss.map (fun xs => xs.map CVal.prim)).map CVal.arr := by
      rw [List.map_map]
      rfl
    rw [h1, flat1_arrs]
    have h2 : (xss.map (fun xs => xs.map CVal.prim)).flatten
        = (xss.flatten).map CVal.prim := by
      rw [List.map_flatten]
    rw [h2]

/-- Witness for C6: with a filter matching nothing, `[[1], [2, 3]]` flattens
to `[1, 2, 3]` — one nesting level lost. -/
theorem traverser_flattens_sequences_witness :
    contentTraverser (fun _ => false) (fun v => .ok v) 3
        (.arr [.arr [.prim (.num 1)], .arr [.prim (.num 2), .prim (.num 3)]])
      = .ok (.arr [.prim (.num 1), .prim (.num 2), .prim (.num 3)]) := by
  have h := (traverser_flattens_sequences (fun _ => false) (fun v => .ok v)).2
    3 [[Prim.num 1], [Prim.num 2, Prim.num 3]] (by norm_num)
  exact h

/-- C7: on a record the traverser applies the transform before descending:
when the filter holds, the node is replaced by the transform's output and
the traversal then recurses into each value of the replaced node (values
that are records, sequences or dates), while scalar values are kept in
place; scalars and opaque dates are returned unchanged at every position.
The concrete instance shows a record introduced by the transform being
transformed in turn. -/
theorem traverser_transforms_before_descending (filter : CVal → Bool)
    (cb : CVal → Except LoadErr CVal) :
    (∀ (f : Nat) (fields : List (String × CVal)),
        filter (.obj fields) = true →
        contentTraverser filter cb (f + 1) (.obj fields)
          = cb (.obj fields) >>=
              (fun newObj => jsEntries newObj >>=
                (fun es => es.mapM (fun kv =>
                    if isTraversable kv.2 then
                      (contentTraverser filter cb f kv.2).map (fun r => (kv.1, r))
                    else pure kv) >>=
                  (fun es2 => pure (.obj es2)))))
    ∧ (∀ (f : Nat) (p : Prim),
        contentTraverser filter cb (f + 1) (.prim p) = .ok (.prim p))
    ∧ (∀ (f : Nat) (d : Nat),
        contentTraverser filter cb (f + 1) (.date d) = .ok (.date d))
    ∧ contentTraverser markFilter markCallback 5 (.obj [("m", .prim (.num 7))])
        = .ok (.obj [("seen", .prim (.num 7)),
                     ("extra", .obj [("seen", .prim (.num 0))])]) := by
  refine ⟨?_, ?_, ?_, rfl⟩
  · intro f fields hfil
    rw [contentTraverser_obj, if_pos hfil]
  · intro f p
    exact contentTraverser_prim filter cb f p
  · intro f d
    exact contentTraverser_date filter cb f d

/-- Witness for C7: the mark filter holds on `{m: 7}`, and the traversal
transforms it and then the record the transform introduced. -/
theorem traverser_transforms_before_descending_witness :
    markFilter (.obj [("m", .prim (.num 7))]) = true
    ∧ contentTraverser markFilter markCallback 5 (.obj [("m", .prim (.num 7))])
        = markCallback (.obj [("m", .prim (.num 7))]) >>=
            (fun newObj => jsEntries newObj >>=
              (fun es => es.mapM (fun kv =>
                  if isTraversable kv.2 then
                    (contentTraverser markFilter markCallback 4 kv.2).map
                      (fun r => (kv.1, r))
                  else pure kv) >>=
                (fun es2 => pure (.obj es2)))) :=
  ⟨rfl, (traverser_transforms_before_descending markFilter markCallback).1
          4 [("m", .prim (.num 7))] rfl⟩

/-- C8: fragment resolution has no cycle detection.  For the concrete
self-referencing chain (a record `{_x: "a"}` whose fragment file `a`
contains `{_x: "a"}` again) the resolution pass exhausts every recursion
budget: it diverges on this input in the original, i.e. the resolution is
not total on cyclic fragment graphs. -/
theorem fragment_cycle_diverges :
    ∀ fuel : Nat, fragmentPass fsC8 fuel cycC8 = .error .fuelOut := by
  intro fuel
  induction fuel with
  | zero => rfl
  | succ f ih =>
      have ih' : contentTraverser fragmentFilter (loadAndAttachFragments fsC8) f
          (.obj [("_x", .prim (.str "a"))]) = .error .fuelOut := ih
      show contentTraverser fragmentFilter (loadAndAttachFragments fsC8) (f + 1)
          (.obj [("_x", .prim (.str "a"))]) = .error .fuelOut
      rw [contentTraverser_obj,
        if_pos (show fragmentFilter (.obj [("_x", .prim (.str "a"))]) = true from rfl),
        show loadAndAttachFragments fsC8 (.obj [("_x", .prim (.str "a"))])
            = Except.ok (.obj [("x", .obj [("_x", .prim (.str "a"))])]) from rfl]
      show (([("x", CVal.obj [("_x", CVal.prim (Prim.str "a"))])] :
            List (String × CVal)).mapM
          (fun kv => if isTraversable kv.2 then
              (contentTraverser fragmentFilter (loadAndAttachFragments fsC8) f
                kv.2).map (fun r => (kv.1, r))
            else pure kv) >>= (fun es2 => pure (CVal.obj es2))) = .error .fuelOut
      rw [List.mapM_cons]
      simp only [isTraversable, if_true, ih']
      rfl

/-! ## Lemmas: spread merging and named-fragment attachment -/

theorem lookupA_some_mem {α : Type} (m : Assoc α) (k : String) (v : α)
    (h : lookupA m k = some v) : (k, v) ∈ m := by
  induction m with
  | nil => simp [lookupA] at h
  | cons kv m ih =>
      obtain ⟨k₁, v₁⟩ := kv
      by_cases hk : k = k₁
      · subst hk
        simp [lookupA] at h
        subst h
        exact List.mem_cons_self _ _
      · simp [lookupA, hk] at h
        exact List.mem_cons_of_mem _ (ih h)

theorem lookupA_mergeSpread_left (A B : List (String × CVal)) (k : String) :
    lookupA (A.map (fun kv =>
        match lookupA B kv.1 with
        | some v => (kv.1, v)
        | none => kv)) k
      = match lookupA A k with
        | none => none
        | some va =>
            match lookupA B k with
            | some vb => some vb
            | none => some va := by
  induction A with
  | nil => rfl
  | cons kv A ih =>
      obtain ⟨k₁, v₁⟩ := kv
      by_cases hk : k = k₁
      · subst hk
        cases hB : lookupA B k <;> simp [lookupA, hB]
      · cases hB : lookupA B k₁ <;> simp [lookupA, hk, hB, ih]

theorem lookupA_filter_not_memA (A B : List (String × CVal)) (k : String) :
    lookupA (B.filter (fun kv => !(memA A kv.1))) k
      = if memA A k then none else lookupA B k := by
  induction B with
  | nil => simp [lookupA]
  | cons kv B ih =>
      obtain ⟨k₁, v₁⟩ := kv
      by_cases hmem : memA A k₁ = true <;> by_cases hk : k = k₁ <;>
        simp_all [List.filter_cons, lookupA]

theorem lookupA_mergeSpread (A B : List (String × CVal)) (k : String) :
    lookupA (mergeSpread A B) k
      = match lookupA B k with
        | some vb => some vb
        | none => lookupA A k := by
  unfold mergeSpread
  rw [lookupA_append, lookupA_mergeSpread_left, lookupA_filter_not_memA]
  cases hA : lookupA A k <;> cases hB : lookupA B k <;> simp [memA, hA, hB]

theorem mergeSpread_keys (A B : List (String × CVal)) :
    ∀ kv ∈ mergeSpread A B, kv.1 ∈ A.map Prod.fst ∨ kv.1 ∈ B.map Prod.fst := by
  intro kv hkv
  unfold mergeSpread at hkv
  rw [List.mem_append] at hkv
  rcases hkv with h | h
  · left
    obtain ⟨p, hpA, hpe⟩ := List.mem_map.mp h
    have hfst : kv.1 = p.1 := by
      cases hB : lookupA B p.1 <;> rw [hB] at hpe <;> subst hpe <;> rfl
    rw [hfst]
    exact List.mem_map.mpr ⟨p, hpA, rfl⟩
  · right
    exact List.mem_map.mpr ⟨kv, (List.mem_filter.mp h).1, rfl⟩

theorem mergeSpread_nil_left (B : List (String × CVal)) : mergeSpread [] B = B := by
  show ([] : List (String × CVal)) ++ B.filter (fun kv => !(memA [] kv.1)) = B
  rw [List.nil_append]
  apply List.filter_eq_self.mpr
  intro a _
  rfl

theorem attachNamed_no_underscore (fs : Assoc CVal) :
    ∀ (keys : List String) (pf cur : List (String × CVal)),
      (∀ k ∈ keys, startsWithU k = false) →
      attachNamed fs keys pf cur = .ok (pf, cur) := by
  intro keys
  induction keys with
  | nil => intro pf cur _; rfl
  | cons k rest ih =>
      intro pf cur h
      have hk : startsWithU k = false := h k (List.mem_cons_self _ _)
      simp only [attachNamed, hk, Bool.false_and, Bool.false_eq_true, if_false]
      exact ih pf cur (fun k' hk' => h k' (List.mem_cons_of_mem _ hk'))

/-! ## Claim theorems: fragment resolution (C5) -/

/-- C5 counterexample: for the record `{_: "a"}` with `a = {_: "b", foo: 1}`
and `b = {bar: 2}`, the fragment-resolution pass keeps the fragment's own
`_` key in the result unresolved (`b` is never loaded), whereas the claim's
description ("parse it, recursively resolve fragments within it, merge,
drop the `_` key") yields `{bar: 2, foo: 1}`.  The code's output and the
claimed output differ at this input. -/
theorem fragment_root_reference_counterexample :
    fragmentPass fsC5 9 rC5
        = .ok (.obj [("_", .prim (.str "b")), ("foo", .prim (.num 1))])
    ∧ specResolveRoot fsC5 9 rC5
        = .ok (.obj [("bar", .prim (.num 2)), ("foo", .prim (.num 1))])
    ∧ lookupA [("_", CVal.prim (.str "b")), ("foo", CVal.prim (.num 1))] "_"
        = some (.prim (.str "b"))
    ∧ lookupA [("_", CVal.prim (.str "b")), ("foo", CVal.prim (.num 1))] "bar"
        = none
    ∧ fragmentPass fsC5 9 rC5 ≠ specResolveRoot fsC5 9 rC5 := by
  refine ⟨rfl, rfl, rfl, rfl, ?_⟩
  intro h
  rw [show fragmentPass fsC5 9 rC5
        = Except.ok (CVal.obj [("_", .prim (.str "b")), ("foo", .prim (.num 1))])
        from rfl,
      show specResolveRoot fsC5 9 rC5
        = Except.ok (CVal.obj [("bar", .prim (.num 2)), ("foo", .prim (.num 1))])
        from rfl] at h
  simp at h

/-- C5 (amended): for a record with `_` bound to a string path whose
fragment parses to a record with no `_`-prefixed top-level keys (and whose
other own keys are not `_`-prefixed), `loadAndAttachFragments` parses the
fragment, merges its fields under the current record's fields — the current
record's own fields winning on every key collision — and drops the `_` key.
(A top-level `_` key contributed by the fragment itself would be left in
the result unresolved, as the counterexample shows; nested fragment
references inside merged values are handled later by traversal descent.) -/
theorem fragment_root_merge_amended (fs : Assoc CVal)
    (fields gs : List (String × CVal)) (p : String)
    (h1 : lookupA fields "_" = some (.prim (.str p)))
    (h2 : lookupA fs p = some (.obj gs))
    (h3 : ∀ kv ∈ gs, startsWithU kv.1 = false)
    (h4 : ∀ kv ∈ fields, kv.1 ≠ "_" → startsWithU kv.1 = false) :
    loadAndAttachFragments fs (.obj fields)
        = .ok (.obj (mergeSpread gs (eraseA fields "_")))
    ∧ lookupA (mergeSpread gs (eraseA fields "_")) "_" = none
    ∧ (∀ (k : String) (v : CVal), k ≠ "_" → lookupA fields k = some v →
        lookupA (mergeSpread gs (eraseA fields "_")) k = some v)
    ∧ (∀ k : String, lookupA fields k = none →
        lookupA (mergeSpread gs (eraseA fields "_")) k = lookupA gs k) := by
  have hfrag : parseFile fs p = Except.ok (.obj gs) := by simp [parseFile, h2]
  have hgsu : lookupA gs "_" = none := by
    cases hg : lookupA gs "_" with
    | none => rfl
    | some v =>
        have hmem := lookupA_some_mem gs "_" v hg
        have := h3 ("_", v) hmem
        simp [startsWithU] at this
  refine ⟨?_, ?_, ?_, ?_⟩
  · have hkeys : ∀ k ∈ (mergeSpread gs (eraseA fields "_")).map Prod.fst,
        startsWithU k = false := by
      intro k hkmem
      obtain ⟨kv, hkv, rfl⟩ := List.mem_map.mp hkmem
      rcases mergeSpread_keys gs (eraseA fields "_") kv hkv with h | h
      · obtain ⟨kv', hkv', he⟩ := List.mem_map.mp h
        rw [← he]
        exact h3 kv' hkv'
      · obtain ⟨kv', hkv', he⟩ := List.mem_map.mp h
        rw [← he]
        have hin := List.mem_filter.mp hkv'
        refine h4 kv' hin.1 ?_
        have := hin.2
        simp at this
        exact this
    simp only [loadAndAttachFragments]
    rw [h1]
    show (do
        let frag ← parseFile fs p
        let y ← pure (mergeSpread (spreadFields frag) (eraseA fields "_"))
        let r ← attachNamed fs (List.map Prod.fst y) [] y
        pure (CVal.obj (mergeSpread r.1 r.2))) = _
    rw [hfrag]
    show (do
        let r ← attachNamed fs
          (List.map Prod.fst (mergeSpread gs (eraseA fields "_"))) []
          (mergeSpread gs (eraseA fields "_"))
        pure (CVal.obj (mergeSpread r.1 r.2))) = _
    rw [attachNamed_no_underscore fs _ [] _ hkeys]
    show Except.ok (CVal.obj (mergeSpread []
        (mergeSpread gs (eraseA fields "_")))) = _
    rw [mergeSpread_nil_left]
  · rw [lookupA_mergeSpread, lookupA_eraseA]
    simp [hgsu]
  · intro k v hk hkv
    rw [lookupA_mergeSpread, lookupA_eraseA, if_neg hk, hkv]
  · intro k hnone
    rw [lookupA_mergeSpread, lookupA_eraseA]
    by_cases hk : k = "_" <;> simp [hk, hnone, h1]

/-- Witness for the amended C5 at concrete inputs: `{_: "a", foo: 1}` with
`a = {x: 5, foo: 9}` merges to `{x: 5, foo: 1}`: the record's own `foo`
wins, the fragment's `x` shows through, and `_` is gone. -/
theorem fragment_root_merge_amended_witness :
    loadAndAttachFragments [("a", .obj [("x", .prim (.num 5)), ("foo", .prim (.num 9))])]
        (.obj [("_", .prim (.str "a")), ("foo", .prim (.num 1))])
      = .ok (.obj (mergeSpread [("x", .prim (.num 5)), ("foo", .prim (.num 9))]
          (eraseA [("_", .prim (.str "a")), ("foo", .prim (.num 1))] "_")))
    ∧ lookupA (mergeSpread [("x", .prim (.num 5)), ("foo", .prim (.num 9))]
          (eraseA [("_", .prim (.str "a")), ("foo", .prim (.num 1))] "_")) "_" = none
    ∧ lookupA (mergeSpread [("x", .prim (.num 5)), ("foo", .prim (.num 9))]
          (eraseA [("_", .prim (.str "a")), ("foo", .prim (.num 1))] "_")) "foo"
        = some (.prim (.num 1))
    ∧ lookupA (mergeSpread [("x", .prim (.num 5)), ("foo", .prim (.num 9))]
          (eraseA [("_", .prim (.str "a")), ("foo", .prim (.num 1))] "_")) "x"
        = lookupA [("x", CVal.prim (.num 5)), ("foo", CVal.prim (.num 9))] "x" := by
  have H := fragment_root_merge_amended
    [("a", .obj [("x", .prim (.num 5)), ("foo", .prim (.num 9))])]
    [("_", .prim (.str "a")), ("foo", .prim (.num 1))]
    [("x", .prim (.num 5)), ("foo", .prim (.num 9))]
    "a" rfl rfl
    (by
      intro kv hkv
      simp only [List.mem_cons, List.not_mem_nil, or_false] at hkv
      rcases hkv with rfl | rfl <;> rfl)
    (by
      intro kv hkv hne
      simp only [List.mem_cons, List.not_mem_nil, or_false] at hkv
      rcases hkv with rfl | rfl
      · exact absurd rfl hne
      · rfl)
  exact ⟨H.1, H.2.1, H.2.2.1 "foo" (.prim (.num 1)) (by decide) rfl,
    H.2.2.2 "x" rfl⟩

/-! ## Lemmas: rollback folds -/

theorem lookupA_erase_foldl {α : Type} :
    ∀ (l : List String) (m : Assoc α) (v : String),
      (lookupA m v = none ∨ v ∈ l) →
      lookupA (l.foldl (fun m x => eraseA m x) m) v = none := by
  intro l
  induction l with
  | nil =>
      intro m v h
      rcases h with h | h
      · exact h
      · simp at h
  | cons a l ih =>
      intro m v h
      simp only [List.foldl_cons]
      apply ih
      by_cases hv : v = a
      · left
        rw [lookupA_eraseA]
        simp [hv]
      · rcases h with h | h
        · left
          rw [lookupA_eraseA]
          simp [hv, h]
        · rcases List.mem_cons.mp h with rfl | h2
          · exact absurd rfl hv
          · right
            exact h2

theorem f2e_fold_clear (entryPath : String) :
    ∀ (csf : List String) (m : Assoc (List String)) (f : String),
      (entryPath ∉ (lookupA m f).getD [] ∨ f ∈ csf) →
      entryPath ∉ (lookupA (csf.foldl (fun m f' =>
          match lookupA m f' with
          | some es => insertA m f' (es.filter (fun x => decide (x ≠ entryPath)))
          | none => m) m) f).getD [] := by
  intro csf
  induction csf with
  | nil =>
      intro m f h
      rcases h with h | h
      · exact h
      · simp at h
  | cons a csf ih =>
      intro m f h
      simp only [List.foldl_cons]
      apply ih
      by_cases hf : f = a
      · left
        subst hf
        cases hm : lookupA m f with
        | none => simp [hm]
        | some es =>
            simp only [hm]
            rw [lookupA_insertA]
            simp only [if_pos rfl, Option.getD_some]
            intro hmem
            have := (List.mem_filter.mp hmem).2
            simp at this
      · rcases h with h | h
        · left
          cases hm : lookupA m a with
          | none => simpa [hm] using h
          | some es =>
              simp only [hm]
              rw [lookupA_insertA, if_neg hf]
              exact h
        · rcases List.mem_cons.mp h with rfl | h2
          · exact absurd rfl hf
          · right
            exact h2

/-! ## Claim theorem: failed load rollback (C2) -/

/-- C2: when a page computation that actually started (cache miss) fails,
the rollback leaves no trace: the page cache has no entry for the path,
every virtual unit the computation registered is gone from the virtual-unit
cache, every file→entry edge it registered is removed, the
entry→virtual-unit mapping for the path is removed, and the original error
is re-raised. -/
theorem failedLoad_rolls_back (s : CacheState) (e : String)
    (events : List LoadEvent) (err : Nat)
    (h : lookupA s.pageCache e = none) :
    (vpsCall s e).2.2 = true
    ∧ lookupA (vpsRunFailing s e events err).1.pageCache e = none
    ∧ lookupA (vpsRunFailing s e events err).1.entryToVirtualComponents e = none
    ∧ (∀ v ∈ (runEvents e (vpsCall s e).1 events).2.2,
        lookupA (vpsRunFailing s e events err).1.virtualComponentCache v = none)
    ∧ (∀ f ∈ (runEvents e (vpsCall s e).1 events).2.1,
        e ∉ (lookupA (vpsRunFailing s e events err).1.fileToContentEntries f).getD [])
    ∧ (vpsRunFailing s e events err).2 = Except.error err := by
  have hrun : vpsRunFailing s e events err
      = (rollbackFailedLoad e (runEvents e (vpsCall s e).1 events).1
          (runEvents e (vpsCall s e).1 events).2.1
          (runEvents e (vpsCall s e).1 events).2.2, Except.error err) := rfl
  refine ⟨by simp [vpsCall, h], ?_, ?_, ?_, ?_, by rw [hrun]⟩
  · rw [hrun]
    show lookupA (eraseA _ e) e = none
    rw [lookupA_eraseA]
    simp
  · rw [hrun]
    show lookupA (eraseA _ e) e = none
    rw [lookupA_eraseA]
    simp
  · intro v hv
    rw [hrun]
    exact lookupA_erase_foldl _ _ v (Or.inr hv)
  · intro f hf
    rw [hrun]
    exact f2e_fold_clear e _ _ f (Or.inr hf)

/-- Witness for C2: from the empty cache, a failing load of "home" that
reported file "f1" and registered virtual unit "v1" leaves no trace of
either, and error 42 is re-raised. -/
theorem failedLoad_rolls_back_witness :
    (vpsCall emptyCache "home").2.2 = true
    ∧ lookupA (vpsRunFailing emptyCache "home"
        [.reportFile "f1", .reportVC "v1" 7] 42).1.pageCache "home" = none
    ∧ lookupA (vpsRunFailing emptyCache "home"
        [.reportFile "f1", .reportVC "v1" 7] 42).1.entryToVirtualComponents "home" = none
    ∧ lookupA (vpsRunFailing emptyCache "home"
        [.reportFile "f1", .reportVC "v1" 7] 42).1.virtualComponentCache "v1" = none
    ∧ "home" ∉ (lookupA (vpsRunFailing emptyCache "home"
        [.reportFile "f1", .reportVC "v1" 7] 42).1.fileToContentEntries "f1").getD []
    ∧ (vpsRunFailing emptyCache "home"
        [.reportFile "f1", .reportVC "v1" 7] 42).2 = Except.error 42 := by
  have H := failedLoad_rolls_back emptyCache "home"
    [.reportFile "f1", .reportVC "v1" 7] 42 rfl
  exact ⟨H.1, H.2.1, H.2.2.1,
    H.2.2.2.1 "v1" (by decide),
    H.2.2.2.2.1 "f1" (by decide),
    H.2.2.2.2.2⟩

/-! ## Lemmas: invalidation folds -/

theorem invalVc_fold_lookup :
    ∀ (vcs : List String) (vcc : Assoc VCEntry) (aV : List String) (v : String),
      lookupA (vcs.foldl invalProcessVc (vcc, aV)).1 v
        = if v ∈ vcs then none else lookupA vcc v := by
  intro vcs
  induction vcs with
  | nil => intro vcc aV v; simp
  | cons a vcs ih =>
      intro vcc aV v
      simp only [List.foldl_cons]
      by_cases hsome : (lookupA vcc a).isSome = true
      · rw [show invalProcessVc (vcc, aV) a = (eraseA vcc a, aV ++ [a]) by
          simp [invalProcessVc, hsome]]
        rw [ih]
        by_cases hva : v = a <;> by_cases hvv : v ∈ vcs <;>
          simp [hva, hvv, lookupA_eraseA]
      · rw [show invalProcessVc (vcc, aV) a = (vcc, aV) by
          simp [invalProcessVc, hsome]]
        rw [ih]
        have hnone : lookupA vcc a = none := by
          cases h : lookupA vcc a with
          | none => rfl
          | some w => rw [h] at hsome; simp at hsome
        by_cases hva : v = a <;> by_cases hvv : v ∈ vcs <;>
          simp [hva, hvv, hnone]

theorem invalVc_fold_mem :
    ∀ (vcs : List String) (vcc : Assoc VCEntry) (aV : List String) (v : String),
      v ∈ (vcs.foldl invalProcessVc (vcc, aV)).2
        ↔ v ∈ aV ∨ (v ∈ vcs ∧ (lookupA vcc v).isSome = true) := by
  intro vcs
  induction vcs with
  | nil => intro vcc aV v; simp
  | cons a vcs ih =>
      intro vcc aV v
      simp only [List.foldl_cons]
      by_cases hsome : (lookupA vcc a).isSome = true
      · rw [show invalProcessVc (vcc, aV) a = (eraseA vcc a, aV ++ [a]) by
          simp [invalProcessVc, hsome]]
        rw [ih]
        by_cases hva : v = a
        · subst hva
          simp [hsome, lookupA_eraseA]
        · simp only [List.mem_append, List.mem_singleton, hva, or_false,
            List.mem_cons, lookupA_eraseA, if_neg hva]
          tauto
      · rw [show invalProcessVc (vcc, aV) a = (vcc, aV) by
          simp [invalProcessVc, hsome]]
        rw [ih]
        by_cases hva : v = a
        · subst hva
          simp [hsome]
        · simp only [List.mem_cons, hva, false_or]

theorem invalProcessEntry_char (s : CacheState) (aE aV : List String) (d : String) :
    (∀ k, lookupA (invalProcessEntry (s, aE, aV) d).1.pageCache k
        = if k = d then none else lookupA s.pageCache k)
    ∧ (∀ k, lookupA (invalProcessEntry (s, aE, aV) d).1.entryToVirtualComponents k
        = if k = d then none else lookupA s.entryToVirtualComponents k)
    ∧ (∀ v, lookupA (invalProcessEntry (s, aE, aV) d).1.virtualComponentCache v
        = if v ∈ (lookupA s.entryToVirtualComponents d).getD [] then none
          else lookupA s.virtualComponentCache v)
    ∧ (∀ k, k ∈ (invalProcessEntry (s, aE, aV) d).2.1
        ↔ k ∈ aE ∨ (k = d ∧ (lookupA s.pageCache k).isSome = true))
    ∧ (∀ v, v ∈ (invalProcessEntry (s, aE, aV) d).2.2
        ↔ v ∈ aV ∨ (v ∈ (lookupA s.entryToVirtualComponents d).getD []
            ∧ (lookupA s.virtualComponentCache v).isSome = true))
    ∧ (invalProcessEntry (s, aE, aV) d).1.fileToContentEntries
        = s.fileToContentEntries := by
  cases he2 : lookupA s.entryToVirtualComponents d with
  | some vcs =>
      have hstep : invalProcessEntry (s, aE, aV) d
          = ({ s with
                pageCache := if (lookupA s.pageCache d).isSome
                  then eraseA s.pageCache d else s.pageCache
                virtualComponentCache :=
                  (vcs.foldl invalProcessVc (s.virtualComponentCache, aV)).1
                entryToVirtualComponents := eraseA s.entryToVirtualComponents d },
             (if (lookupA s.pageCache d).isSome then aE ++ [d] else aE),
             (vcs.foldl invalProcessVc (s.virtualComponentCache, aV)).2) := by
        simp only [invalProcessEntry]
        rw [he2]
      rw [hstep]
      refine ⟨?_, ?_, ?_, ?_, ?_, rfl⟩
      · intro k
        by_cases hit : (lookupA s.pageCache d).isSome = true
        · simp only [hit, if_true]
          rw [lookupA_eraseA]
        · simp only [hit, if_false]
          by_cases hk : k = d
          · subst hk
            simp only [if_true]
            cases h : lookupA s.pageCache k with
            | none => simp [h]
            | some w => rw [h] at hit; simp at hit
          · simp [hk]
      · intro k
        rw [lookupA_eraseA]
      · intro v
        rw [invalVc_fold_lookup]
        rfl
      · intro k
        by_cases hit : (lookupA s.pageCache d).isSome = true
        · simp only [hit, if_true, List.mem_append, List.mem_singleton]
          by_cases hk : k = d
          · subst hk
            simp [hit]
          · simp [hk]
        · simp only [hit, if_false]
          by_cases hk : k = d
          · subst hk
            constructor
            · exact Or.inl
            · rintro (h | ⟨_, h⟩)
              · exact h
              · exact absurd h hit
          · simp [hk]
      · intro v
        rw [invalVc_fold_mem]
        rfl
  | none =>
      have hstep : invalProcessEntry (s, aE, aV) d
          = ({ s with
                pageCache := if (lookupA s.pageCache d).isSome
                  then eraseA s.pageCache d else s.pageCache },
             (if (lookupA s.pageCache d).isSome then aE ++ [d] else aE),
             aV) := by
        simp only [invalProcessEntry]
        rw [he2]
      rw [hstep]
      refine ⟨?_, ?_, ?_, ?_, ?_, rfl⟩
      · intro k
        by_cases hit : (lookupA s.pageCache d).isSome = true
        · simp only [hit, if_true]
          rw [lookupA_eraseA]
        · simp only [hit, if_false]
          by_cases hk : k = d
          · subst hk
            simp only [if_true]
            cases h : lookupA s.pageCache k with
            | none => simp [h]
            | some w => rw [h] at hit; simp at hit
          · simp [hk]
      · intro k
        by_cases hk : k = d
        · subst hk
          simp [he2]
        · simp [hk]
      · intro v
        simp [he2]
      · intro k
        by_cases hit : (lookupA s.pageCache d).isSome = true
        · simp only [hit, if_true, List.mem_append, List.mem_singleton]
          by_cases hk : k = d
          · subst hk
            simp [hit]
          · simp [hk]
        · simp only [hit, if_false]
          by_cases hk : k = d
          · subst hk
            constructor
            · exact Or.inl
            · rintro (h | ⟨_, h⟩)
              · exact h
              · exact absurd h hit
          · simp [hk]
      · intro v
        simp [he2]

theorem invalEntry_fold :
    ∀ (deps : List String) (s : CacheState) (aE aV : List String),
      (∀ k, lookupA (deps.foldl invalProcessEntry (s, aE, aV)).1.pageCache k
          = if k ∈ deps then none else lookupA s.pageCache k)
      ∧ (∀ k, lookupA
            (deps.foldl invalProcessEntry (s, aE, aV)).1.entryToVirtualComponents k
          = if k ∈ deps then none else lookupA s.entryToVirtualComponents k)
      ∧ (∀ v, lookupA
            (deps.foldl invalProcessEntry (s, aE, aV)).1.virtualComponentCache v
          = if ∃ d ∈ deps, v ∈ (lookupA s.entryToVirtualComponents d).getD []
            then none else lookupA s.virtualComponentCache v)
      ∧ (∀ k, k ∈ (deps.foldl invalProcessEntry (s, aE, aV)).2.1
          ↔ k ∈ aE ∨ (k ∈ deps ∧ (lookupA s.pageCache k).isSome = true))
      ∧ (∀ v, v ∈ (deps.foldl invalProcessEntry (s, aE, aV)).2.2
          ↔ v ∈ aV ∨ ((lookupA s.virtualComponentCache v).isSome = true
              ∧ ∃ d ∈ deps, v ∈ (lookupA s.entryToVirtualComponents d).getD []))
      ∧ (deps.foldl invalProcessEntry (s, aE, aV)).1.fileToContentEntries
          = s.fileToContentEntries := by
  intro deps
  induction deps with
  | nil =>
      intro s aE aV
      refine ⟨?_, ?_, ?_, ?_, ?_, rfl⟩ <;> intro x <;> simp
  | cons d₀ rest ih =>
      intro s aE aV
      have C := invalProcessEntry_char s aE aV d₀
      have ih' := ih (invalProcessEntry (s, aE, aV) d₀).1
        (invalProcessEntry (s, aE, aV) d₀).2.1
        (invalProcessEntry (s, aE, aV) d₀).2.2
      rw [show ((invalProcessEntry (s, aE, aV) d₀).1,
            (invalProcessEntry (s, aE, aV) d₀).2.1,
            (invalProcessEntry (s, aE, aV) d₀).2.2)
          = invalProcessEntry (s, aE, aV) d₀ from rfl] at ih'
      simp only [List.foldl_cons]
      refine ⟨?_, ?_, ?_, ?_, ?_, ?_⟩
      · intro k
        rw [ih'.1 k, C.1 k]
        by_cases hkr : k ∈ rest <;> by_cases hkd : k = d₀ <;>
          simp [hkr, hkd, List.mem_cons]
      · intro k
        rw [ih'.2.1 k, C.2.1 k]
        by_cases hkr : k ∈ rest <;> by_cases hkd : k = d₀ <;>
          simp [hkr, hkd, List.mem_cons]
      · intro v
        rw [ih'.2.2.1 v, C.2.2.1 v]
        simp only [C.2.1]
        by_cases hd0 : v ∈ (lookupA s.entryToVirtualComponents d₀).getD []
        · rw [if_pos hd0, ite_self,
            if_pos (show ∃ d ∈ d₀ :: rest,
                v ∈ (lookupA s.entryToVirtualComponents d).getD []
              from ⟨d₀, List.mem_cons_self _ _, hd0⟩)]
        · rw [if_neg hd0]
          have hiff : (∃ d ∈ rest, v ∈ ((if d = d₀ then none
                else lookupA s.entryToVirtualComponents d).getD ([] : List String)))
              ↔ (∃ d ∈ d₀ :: rest,
                  v ∈ (lookupA s.entryToVirtualComponents d).getD []) := by
            constructor
            · rintro ⟨d, hd, hv⟩
              by_cases hdd : d = d₀
              · rw [if_pos hdd] at hv
                simp at hv
              · rw [if_neg hdd] at hv
                exact ⟨d, List.mem_cons_of_mem _ hd, hv⟩
            · rintro ⟨d, hd, hv⟩
              rcases List.mem_cons.mp hd with rfl | hd2
              · exact absurd hv hd0
              · refine ⟨d, hd2, ?_⟩
                by_cases hdd : d = d₀
                · subst hdd
                  exact absurd hv hd0
                · rw [if_neg hdd]
                  exact hv
          rw [if_congr hiff rfl rfl]
      · intro k
        rw [ih'.2.2.2.1 k, C.2.2.2.1 k, C.1 k]
        by_cases hkd : k = d₀ <;> by_cases hkr : k ∈ rest <;>
          simp [hkd, hkr, List.mem_cons] <;> tauto
      · intro v
        rw [ih'.2.2.2.2.1 v, C.2.2.2.2.1 v, C.2.2.1 v]
        simp only [C.2.1]
        by_cases hd0 : v ∈ (lookupA s.entryToVirtualComponents d₀).getD []
        · rw [if_pos hd0]
          constructor
          · rintro (h | h)
            · rcases h with h | ⟨_, hsome⟩
              · exact Or.inl h
              · exact Or.inr ⟨hsome, d₀, List.mem_cons_self _ _, hd0⟩
            · rcases h with ⟨hsome, _⟩
              simp at hsome
          · rintro (h | ⟨hsome, d, hd, hv⟩)
            · exact Or.inl (Or.inl h)
            · exact Or.inl (Or.inr ⟨hd0, hsome⟩)
        · rw [if_neg hd0]
          have hiff : (∃ d ∈ rest, v ∈ ((if d = d₀ then none
                else lookupA s.entryToVirtualComponents d).getD ([] : List String)))
              ↔ (∃ d ∈ d₀ :: rest,
                  v ∈ (lookupA s.entryToVirtualComponents d).getD []) := by
            constructor
            · rintro ⟨d, hd, hv⟩
              by_cases hdd : d = d₀
              · rw [if_pos hdd] at hv
                simp at hv
              · rw [if_neg hdd] at hv
                exact ⟨d, List.mem_cons_of_mem _ hd, hv⟩
            · rintro ⟨d, hd, hv⟩
              rcases List.mem_cons.mp hd with rfl | hd2
              · exact absurd hv hd0
              · refine ⟨d, hd2, ?_⟩
                by_cases hdd : d = d₀
                · subst hdd
                  exact absurd hv hd0
                · rw [if_neg hdd]
                  exact hv
          constructor
          · rintro (h | h)
            · rcases h with h | ⟨hfalse, _⟩
              · exact Or.inl h
              · exact absurd hfalse hd0
            · rcases h with ⟨hsome, hex⟩
              exact Or.inr ⟨hsome, hiff.mp hex⟩
          · rintro (h | ⟨hsome, hex⟩)
            · exact Or.inl (Or.inl h)
            · exact Or.inr ⟨hsome, hiff.mpr hex⟩
      · rw [ih'.2.2.2.2.2, C.2.2.2.2.2]

/-! ## Claim theorem: cascade invalidation (C3) -/

/-- C3: `invalidateAndGetAffectedItems(F)` deletes the page-cache entry of
every entry path recorded as depending on `F`, deletes every virtual unit
listed for each such entry together with that entry's entry→virtual-unit
mapping, returns exactly the entry paths and virtual unit ids actually
evicted, and a subsequent `virtualPageSource` call for an evicted entry
misses the cache and starts a fresh computation. -/
theorem invalidate_evicts_exactly (s : CacheState) (F : String) :
    (∀ e ∈ (lookupA s.fileToContentEntries F).getD [],
        lookupA (invalidateAndGetAffectedItems s F).1.pageCache e = none
        ∧ lookupA
            (invalidateAndGetAffectedItems s F).1.entryToVirtualComponents e = none)
    ∧ (∀ e ∈ (lookupA s.fileToContentEntries F).getD [],
        ∀ v ∈ (lookupA s.entryToVirtualComponents e).getD [],
          lookupA
            (invalidateAndGetAffectedItems s F).1.virtualComponentCache v = none)
    ∧ (∀ k, k ∈ (invalidateAndGetAffectedItems s F).2.1
        ↔ k ∈ (lookupA s.fileToContentEntries F).getD []
          ∧ (lookupA s.pageCache k).isSome = true)
    ∧ (∀ v, v ∈ (invalidateAndGetAffectedItems s F).2.2
        ↔ (lookupA s.virtualComponentCache v).isSome = true
          ∧ ∃ e ∈ (lookupA s.fileToContentEntries F).getD [],
              v ∈ (lookupA s.entryToVirtualComponents e).getD [])
    ∧ (∀ e ∈ (lookupA s.fileToContentEntries F).getD [],
        (vpsCall (invalidateAndGetAffectedItems s F).1 e).2.2 = true) := by
  cases hdeps : lookupA s.fileToContentEntries F with
  | none =>
      have hres : invalidateAndGetAffectedItems s F = (s, [], []) := by
        simp [invalidateAndGetAffectedItems, hdeps]
      refine ⟨?_, ?_, ?_, ?_, ?_⟩ <;> simp [hres, hdeps]
  | some deps =>
      by_cases hne : deps.isEmpty = true
      · have hdE : deps = [] := by
          cases deps with
          | nil => rfl
          | cons a l => simp [List.isEmpty] at hne
        subst hdE
        have hres : invalidateAndGetAffectedItems s F = (s, [], []) := by
          simp [invalidateAndGetAffectedItems, hdeps]
        refine ⟨?_, ?_, ?_, ?_, ?_⟩ <;> simp [hres, hdeps]
      · have hres : invalidateAndGetAffectedItems s F
            = ({ (deps.foldl invalProcessEntry (s, [], [])).1 with
                  fileToContentEntries :=
                    eraseA (deps.foldl invalProcessEntry
                      (s, [], [])).1.fileToContentEntries F },
               (deps.foldl invalProcessEntry (s, [], [])).2.1,
               (deps.foldl invalProcessEntry (s, [], [])).2.2) := by
          simp [invalidateAndGetAffectedItems, hdeps, hne]
        have E := invalEntry_fold deps s [] []
        refine ⟨?_, ?_, ?_, ?_, ?_⟩
        · intro e he
          simp only [Option.getD_some] at he
          constructor
          · rw [hres]
            show lookupA (deps.foldl invalProcessEntry (s, [], [])).1.pageCache e
                = none
            rw [E.1 e, if_pos he]
          · rw [hres]
            show lookupA
                (deps.foldl invalProcessEntry (s, [], [])).1.entryToVirtualComponents e
                = none
            rw [E.2.1 e, if_pos he]
        · intro e he v hv
          simp only [Option.getD_some] at he
          rw [hres]
          show lookupA
              (deps.foldl invalProcessEntry (s, [], [])).1.virtualComponentCache v
              = none
          rw [E.2.2.1 v, if_pos ⟨e, he, hv⟩]
        · intro k
          rw [hres]
          show k ∈ (deps.foldl invalProcessEntry (s, [], [])).2.1 ↔ _
          rw [E.2.2.2.1 k]
          simp only [Option.getD_some, List.not_mem_nil, false_or]
        · intro v
          rw [hres]
          show v ∈ (deps.foldl invalProcessEntry (s, [], [])).2.2 ↔ _
          rw [E.2.2.2.2.1 v]
          simp only [Option.getD_some, List.not_mem_nil, false_or]
        · intro e he
          simp only [Option.getD_some] at he
          rw [hres]
          have hpc : lookupA
              (deps.foldl invalProcessEntry (s, [], [])).1.pageCache e = none := by
            rw [E.1 e, if_pos he]
          show (vpsCall _ e).2.2 = true
          simp [vpsCall, hpc]

/-- Witness for C3: changing file `F` in `sampleCache` evicts exactly entry
`p1` and its virtual component `v1`, leaves `p2`/`v2` alone, and a
subsequent call for `p1` starts a fresh computation. -/
theorem invalidate_evicts_exactly_witness :
    lookupA (invalidateAndGetAffectedItems sampleCache "F").1.pageCache "p1" = none
    ∧ lookupA
        (invalidateAndGetAffectedItems sampleCache "F").1.entryToVirtualComponents
        "p1" = none
    ∧ lookupA
        (invalidateAndGetAffectedItems sampleCache "F").1.virtualComponentCache
        "v1" = none
    ∧ "p1" ∈ (invalidateAndGetAffectedItems sampleCache "F").2.1
    ∧ "p2" ∉ (invalidateAndGetAffectedItems sampleCache "F").2.1
    ∧ "v1" ∈ (invalidateAndGetAffectedItems sampleCache "F").2.2
    ∧ "v2" ∉ (invalidateAndGetAffectedItems sampleCache "F").2.2
    ∧ (vpsCall (invalidateAndGetAffectedItems sampleCache "F").1 "p1").2.2 = true := by
  have H := invalidate_evicts_exactly sampleCache "F"
  exact ⟨(H.1 "p1" (by decide)).1, (H.1 "p1" (by decide)).2,
    H.2.1 "p1" (by decide) "v1" (by decide),
    (H.2.2.1 "p1").mpr (by decide),
    fun hmem => absurd ((H.2.2.1 "p2").mp hmem) (by decide),
    (H.2.2.2.1 "v1").mpr (by decide),
    fun hmem => absurd ((H.2.2.2.1 "v2").mp hmem) (by decide),
    H.2.2.2.2 "p1" (by decide)⟩
